import Mathlib

/-!
Shallow embedding of the QueueCTL job-queue core (storage.py, queue.py,
config.py) and verification of its specified properties.

Modelling conventions:
* the SQLite `jobs` table is a `List Job`; SQL `UPDATE ... WHERE` becomes
  `List.map` with a guard, `INSERT` an append after a duplicate check,
  `SELECT ... LIMIT 1` a `List.find?` or an explicit minimum scan;
* ISO-8601 UTC timestamp strings compare lexicographically exactly as
  chronologically, so timestamps are modelled as `Nat`;
* a nullable SQL column is an `Option`; the code stores the unowned
  `worker_id` sometimes as NULL and sometimes as `''`, so `worker_id` is an
  `Option String` and emptiness is the disjunction the SQL queries use;
* each Python method that reads the wall clock receives `now : Nat`
  explicitly; each method returns its result paired with the new table.
-/

/-- Job state constants (class `JobState` in storage.py). -/
inductive JState where
  | pending
  | processing
  | completed
  | failed
  | dlq
deriving DecidableEq, Repr

open JState

/-- One row of the `jobs` table (schema in `Storage._init_db`). -/
structure Job where
  id : String
  command : String
  state : JState
  attempts : Nat
  max_retries : Nat
  created_at : Nat
  updated_at : Nat
  started_at : Option Nat
  completed_at : Option Nat
  next_retry_at : Option Nat
  error_message : Option String
  worker_id : Option String
deriving DecidableEq, Repr

/-- The SQL predicate `worker_id IS NULL OR worker_id = ''`. -/
def wempty (w : Option String) : Bool :=
  w = none || w = some ""

/-- Retry/backoff configuration (config.py); only the keys the queue logic
reads.  `Config.set` rejects negative values, so they are `Nat`. -/
structure Config where
  max_retries : Nat
  backoff_base : Nat
  backoff_max_delay : Nat
deriving DecidableEq, Repr

/-- `Config.calculate_backoff_delay`: `min(base ** attempts, max_delay)`. -/
def calculate_backoff_delay (cfg : Config) (attempts : Nat) : Nat :=
  min (cfg.backoff_base ^ attempts) cfg.backoff_max_delay

/-- `Storage.enqueue_job`: INSERT of a fresh pending row; the PRIMARY KEY
constraint makes a duplicate id a `False` return, not an error. -/
def enqueue_job (db : List Job) (job_id command : String) (max_retries : Nat)
    (now : Nat) : Bool × List Job :=
  if db.any (fun j => j.id = job_id) then
    (false, db)
  else
    (true, db ++ [{ id := job_id, command := command, state := pending,
                    attempts := 0, max_retries := max_retries,
                    created_at := now, updated_at := now,
                    started_at := none, completed_at := none,
                    next_retry_at := none, error_message := none,
                    worker_id := none }])

/-- `Storage.get_job`: `SELECT * FROM jobs WHERE id = ?` (first match). -/
def get_job (db : List Job) (job_id : String) : Option Job :=
  db.find? (fun j => j.id = job_id)

/-- The WHERE clause of the lease SELECT in `Storage.get_next_pending_job`:
`(state = pending OR (state = failed AND next_retry_at <= now)) AND
(worker_id IS NULL OR worker_id = '')`.  SQL `NULL <= now` is not true. -/
def eligible (now : Nat) (j : Job) : Bool :=
  (j.state = pending ||
    (j.state = failed &&
      match j.next_retry_at with
      | some t => decide (t ≤ now)
      | none => false)) &&
  wempty j.worker_id

/-- `ORDER BY created_at ASC LIMIT 1` over an unordered row set: the row
with minimal `created_at` (ties resolved arbitrarily by the engine; here,
earliest in the list). -/
def pickOldest : List Job → Option Job
  | [] => none
  | j :: rest =>
    match pickOldest rest with
    | none => some j
    | some k => if j.created_at ≤ k.created_at then some j else some k

/-- The SET clause of the lease UPDATE: `state = processing, worker_id = w,
started_at = now, updated_at = now`. -/
def leaseUpdate (w : String) (now : Nat) (j : Job) : Job :=
  { j with state := processing, worker_id := some w,
           started_at := some now, updated_at := now }

/-- `Storage.get_next_pending_job`: select the oldest eligible row, then a
conditional UPDATE re-checking `worker_id` emptiness, and a rowcount check;
the returned dict is the selected row with only `state` and `worker_id`
overwritten in Python. -/
def get_next_pending_job (db : List Job) (w : String) (now : Nat) :
    Option Job × List Job :=
  match pickOldest (db.filter (eligible now)) with
  | none => (none, db)
  | some r =>
    let updated := db.map (fun q =>
      if q.id = r.id && wempty q.worker_id then leaseUpdate w now q else q)
    let rowcount := (db.filter (fun q => q.id = r.id && wempty q.worker_id)).length
    if 0 < rowcount then
      (some { r with state := processing, worker_id := some w }, updated)
    else
      (none, db)

/-- `Storage.update_job_state`: the COMPLETED branch sets `state,
completed_at, updated_at, error_message`; every other state sets `state,
updated_at, error_message, worker_id` with Python `worker_id or ''`. -/
def update_job_state (db : List Job) (job_id : String) (st : JState)
    (error_message : Option String) (worker_id : Option String) (now : Nat) :
    Bool × List Job :=
  if st = completed then
    (db.any (fun j => j.id = job_id),
     db.map (fun j =>
       if j.id = job_id then
         { j with state := st, completed_at := some now, updated_at := now,
                  error_message := error_message }
       else j))
  else
    (db.any (fun j => j.id = job_id),
     db.map (fun j =>
       if j.id = job_id then
         { j with state := st, updated_at := now,
                  error_message := error_message,
                  worker_id := some (match worker_id with
                                     | some s => if s = "" then "" else s
                                     | none => "") }
       else j))

/-- `Storage.increment_job_attempts`: `attempts = attempts + 1`, schedule
`next_retry_at`, clear ownership, move to `failed`. -/
def increment_job_attempts (db : List Job) (job_id : String)
    (next_retry_at : Nat) (error_message : Option String) (now : Nat) :
    Bool × List Job :=
  (db.any (fun j => j.id = job_id),
   db.map (fun j =>
     if j.id = job_id then
       { j with attempts := j.attempts + 1,
                next_retry_at := some next_retry_at,
                updated_at := now, error_message := error_message,
                worker_id := some "", state := failed }
     else j))

/-- `Storage.move_to_dlq`: state to `dlq`, record error, clear ownership;
`attempts` is not written. -/
def move_to_dlq (db : List Job) (job_id : String)
    (error_message : Option String) (now : Nat) : Bool × List Job :=
  (db.any (fun j => j.id = job_id),
   db.map (fun j =>
     if j.id = job_id then
       { j with state := dlq, updated_at := now,
                error_message := error_message, worker_id := some "" }
     else j))

/-- The jobs-table effect of `Storage.deregister_worker`: every row with
`worker_id = w AND state = processing` returns to `pending` with
`worker_id = ''` (the workers-table DELETE is outside the job model). -/
def deregister_worker (db : List Job) (w : String) : List Job :=
  db.map (fun j =>
    if j.worker_id = some w && j.state = processing then
      { j with worker_id := some "", state := pending }
    else j)

/-- Rendering of `JobState` constants as the strings stored in SQLite. -/
def stateStr : JState → String
  | pending => "pending"
  | processing => "processing"
  | completed => "completed"
  | failed => "failed"
  | dlq => "dlq"

/-- Result dict of `Queue.retry_job` / `Queue.enqueue`. -/
structure OpResult where
  success : Bool
  message : String
deriving DecidableEq, Repr

/-- `Queue.retry_job`: refuse when the job is missing or not in
`failed`/`dlq`; otherwise reset it to pending through
`Storage.update_job_state(pending, error_message=None, worker_id=None)`. -/
def retry_job (db : List Job) (job_id : String) (now : Nat) :
    OpResult × List Job :=
  match get_job db job_id with
  | none => ({ success := false, message := "Job " ++ job_id ++ " not found" }, db)
  | some job =>
    if job.state ≠ failed ∧ job.state ≠ dlq then
      ({ success := false,
         message := "Job " ++ job_id ++ " is in state \"" ++ stateStr job.state ++
                    "\" and cannot be retried" }, db)
    else
      let r := update_job_state db job_id pending none none now
      if r.1 then
        ({ success := true,
           message := "Job " ++ job_id ++ " moved back to pending queue" }, r.2)
      else
        ({ success := false,
           message := "Failed to retry job " ++ job_id }, r.2)

/-- `Queue.handle_job_success`: mark completed via `update_job_state`. -/
def handle_job_success (db : List Job) (job_id worker_id : String)
    (now : Nat) : Bool × List Job :=
  update_job_state db job_id completed none (some worker_id) now

/-- The `action` field of the dict `Queue.handle_job_failure` returns. -/
inductive FailAction where
  | retryA
  | dlqA
  | errorA
deriving DecidableEq, Repr

/-- Result dict of `Queue.handle_job_failure` (message field omitted; the
numeric fields are those the retry branch reports). -/
structure FailResult where
  action : FailAction
  attempts : Option Nat
  max_retries : Option Nat
  next_retry_at : Option Nat
deriving DecidableEq, Repr

/-- `Queue.handle_job_failure`: read the job, compute
`attempts = job.attempts + 1`; at or past the budget move to DLQ, otherwise
schedule a retry at `now + calculate_backoff_delay(attempts)` and increment
the stored attempt count. -/
def handle_job_failure (cfg : Config) (db : List Job)
    (job_id error_message worker_id : String) (now : Nat) :
    FailResult × List Job :=
  match get_job db job_id with
  | none =>
    ({ action := .errorA, attempts := none, max_retries := none,
       next_retry_at := none }, db)
  | some job =>
    let attempts := job.attempts + 1
    let mr := job.max_retries
    if attempts ≥ mr then
      ({ action := .dlqA, attempts := none, max_retries := none,
         next_retry_at := none },
       (move_to_dlq db job_id (some error_message) now).2)
    else
      let backoff_delay := calculate_backoff_delay cfg attempts
      let nra := now + backoff_delay
      ({ action := .retryA, attempts := some attempts,
         max_retries := some mr, next_retry_at := some nra },
       (increment_job_attempts db job_id nra (some error_message) now).2)

/-- One operation of the queue's public surface, tagged with the wall-clock
instant at which it runs; used to state whole-history invariants. -/
inductive Op where
  | enq (id command : String) (m : Nat) (now : Nat)
  | lease (w : String) (now : Nat)
  | complete (id w : String) (now : Nat)
  | fail (id err w : String) (now : Nat)
  | retryJ (id : String) (now : Nat)
  | reclaim (w : String)
deriving DecidableEq, Repr

/-- Table effect of one operation (results discarded). -/
def step (cfg : Config) (db : List Job) : Op → List Job
  | .enq id command m now => (enqueue_job db id command m now).2
  | .lease w now => (get_next_pending_job db w now).2
  | .complete id w now => (handle_job_success db id w now).2
  | .fail id err w now => (handle_job_failure cfg db id err w now).2
  | .retryJ id now => (retry_job db id now).2
  | .reclaim w => deregister_worker db w

/-- Run a history of operations from a table. -/
def run (cfg : Config) (db : List Job) (ops : List Op) : List Job :=
  ops.foldl (step cfg) db

/-! ### Concrete rows and configurations used to instantiate theorems -/

/-- Default configuration values (config.py DEFAULTS). -/
def cfgD : Config := { max_retries := 3, backoff_base := 2, backoff_max_delay := 3600 }

/-- Configuration of spec scenario S2 (`max_retries=2, backoff_base=2`). -/
def cfgS2 : Config := { max_retries := 2, backoff_base := 2, backoff_max_delay := 3600 }

/-- A freshly enqueued pending job. -/
def jW : Job :=
  { id := "a", command := "true", state := pending, attempts := 0,
    max_retries := 3, created_at := 0, updated_at := 0, started_at := none,
    completed_at := none, next_retry_at := none, error_message := none,
    worker_id := none }

/-- A job being processed by worker `w1`. -/
def jP : Job :=
  { id := "a", command := "c", state := processing, attempts := 1,
    max_retries := 3, created_at := 0, updated_at := 1, started_at := some 1,
    completed_at := none, next_retry_at := none, error_message := some "x",
    worker_id := some "w1" }

/-- A failed job awaiting its retry window, already leased once. -/
def jC6 : Job :=
  { id := "a", command := "c", state := failed, attempts := 1,
    max_retries := 5, created_at := 0, updated_at := 2, started_at := some 1,
    completed_at := none, next_retry_at := some 4, error_message := some "e",
    worker_id := some "" }

/-- A completed job still carrying the worker that ran it. -/
def jDone : Job :=
  { id := "a", command := "c", state := completed, attempts := 1,
    max_retries := 3, created_at := 0, updated_at := 2, started_at := some 1,
    completed_at := some 2, next_retry_at := none, error_message := none,
    worker_id := some "w1" }

/-- A DLQ job whose budget is exhausted. -/
def jDlq : Job :=
  { id := "a", command := "c", state := dlq, attempts := 1,
    max_retries := 2, created_at := 0, updated_at := 3, started_at := some 1,
    completed_at := none, next_retry_at := some 4, error_message := some "e",
    worker_id := some "" }

/-! ### Helper lemmas -/

lemma get_job_map (db : List Job) (f : Job → Job)
    (hid : ∀ j, (f j).id = j.id) (job_id : String) :
    get_job (db.map f) job_id = (get_job db job_id).map f := by
  unfold get_job
  have hpq : ((fun q : Job => decide (q.id = job_id)) ∘ f) =
      (fun q : Job => decide (q.id = job_id)) := by
    funext q
    simp [Function.comp, hid]
  rw [List.find?_map, hpq]

lemma get_job_id (db : List Job) (job_id : String) (job : Job)
    (h : get_job db job_id = some job) : job.id = job_id := by
  unfold get_job at h
  have h2 := List.find?_some h
  exact of_decide_eq_true h2

lemma get_job_mem (db : List Job) (job_id : String) (job : Job)
    (h : get_job db job_id = some job) : job ∈ db := by
  unfold get_job at h
  exact List.mem_of_find?_eq_some h

lemma pickOldest_none {l : List Job} (h : pickOldest l = none) : l = [] := by
  cases l with
  | nil => rfl
  | cons j rest =>
    exfalso
    unfold pickOldest at h
    cases hr : pickOldest rest with
    | none => rw [hr] at h; dsimp only at h; exact Option.noConfusion h
    | some k =>
      rw [hr] at h; dsimp only at h
      by_cases hc : j.created_at ≤ k.created_at
      · rw [if_pos hc] at h; exact Option.noConfusion h
      · rw [if_neg hc] at h; exact Option.noConfusion h

lemma pickOldest_mem : ∀ {l : List Job} {j : Job}, pickOldest l = some j → j ∈ l := by
  intro l
  induction l with
  | nil => intro j h; exact Option.noConfusion h
  | cons a rest ih =>
    intro j h
    unfold pickOldest at h
    cases hr : pickOldest rest with
    | none =>
      rw [hr] at h; dsimp only at h
      cases h
      exact List.mem_cons_self a rest
    | some k =>
      rw [hr] at h; dsimp only at h
      by_cases hc : a.created_at ≤ k.created_at
      · rw [if_pos hc] at h
        cases h
        exact List.mem_cons_self a rest
      · rw [if_neg hc] at h
        cases h
        exact List.mem_cons_of_mem a (ih hr)

lemma pickOldest_min : ∀ {l : List Job} {j : Job}, pickOldest l = some j →
    ∀ k ∈ l, j.created_at ≤ k.created_at := by
  intro l
  induction l with
  | nil => intro j h; exact Option.noConfusion h
  | cons a rest ih =>
    intro j h k hk
    unfold pickOldest at h
    cases hr : pickOldest rest with
    | none =>
      rw [hr] at h; dsimp only at h
      cases h
      have hnil : rest = [] := pickOldest_none hr
      subst hnil
      rcases List.mem_singleton.mp hk with rfl
      exact le_refl _
    | some m =>
      rw [hr] at h; dsimp only at h
      by_cases hc : a.created_at ≤ m.created_at
      · rw [if_pos hc] at h
        cases h
        rcases List.mem_cons.mp hk with rfl | hk2
        · exact le_refl _
        · exact le_trans hc (ih hr k hk2)
      · rw [if_neg hc] at h
        cases h
        rcases List.mem_cons.mp hk with rfl | hk2
        · exact le_of_lt (Nat.lt_of_not_le hc)
        · exact ih hr k hk2

lemma eligible_wempty {now : Nat} {j : Job} (h : eligible now j = true) :
    wempty j.worker_id = true := by
  unfold eligible at h
  rw [Bool.and_eq_true] at h
  exact h.2

/-- Soundness of the lease: on success the returned job is an eligible row
of minimal `created_at`, returned with `state`/`worker_id` overwritten, and
the table holds its leased version. -/
lemma lease_sound (db : List Job) (w : String) (now : Nat) (j : Job)
    (db2 : List Job) (h : get_next_pending_job db w now = (some j, db2)) :
    ∃ r ∈ db, eligible now r = true ∧
      (∀ q ∈ db, eligible now q = true → r.created_at ≤ q.created_at) ∧
      j = { r with state := processing, worker_id := some w } ∧
      leaseUpdate w now r ∈ db2 := by
  unfold get_next_pending_job at h
  cases hp : pickOldest (db.filter (eligible now)) with
  | none =>
    rw [hp] at h; dsimp only at h
    exact Option.noConfusion (congrArg Prod.fst h)
  | some r =>
    rw [hp] at h; dsimp only at h
    have hrmem := pickOldest_mem hp
    have hrdb : r ∈ db := (List.mem_filter.mp hrmem).1
    have hrel : eligible now r = true := (List.mem_filter.mp hrmem).2
    have hwe : wempty r.worker_id = true := eligible_wempty hrel
    have hrc : r ∈ db.filter (fun q => q.id = r.id && wempty q.worker_id) :=
      List.mem_filter.mpr ⟨hrdb, by simp [hwe]⟩
    have hlen : 0 < (db.filter (fun q => q.id = r.id && wempty q.worker_id)).length :=
      List.length_pos.mpr (List.ne_nil_of_mem hrc)
    rw [if_pos hlen, Prod.mk.injEq] at h
    obtain ⟨h1, h2⟩ := h
    refine ⟨r, hrdb, hrel, ?_, (Option.some.inj h1).symm, ?_⟩
    · intro q hq hqe
      exact pickOldest_min hp q (List.mem_filter.mpr ⟨hq, hqe⟩)
    · rw [← h2]
      have hm := List.mem_map_of_mem (fun q =>
        if q.id = r.id && wempty q.worker_id then leaseUpdate w now q else q) hrdb
      simpa [hwe] using hm

/-- The lease returns `None` exactly when no row is eligible. -/
lemma lease_none (db : List Job) (w : String) (now : Nat) :
    (get_next_pending_job db w now).1 = none ↔
      ∀ q ∈ db, eligible now q = false := by
  unfold get_next_pending_job
  cases hp : pickOldest (db.filter (eligible now)) with
  | none =>
    try dsimp only
    constructor
    · intro _ q hq
      have hnil := pickOldest_none hp
      by_contra hqe
      have hqf : q ∈ db.filter (eligible now) :=
        List.mem_filter.mpr ⟨hq, Bool.of_not_eq_false hqe⟩
      rw [hnil] at hqf
      exact List.not_mem_nil q hqf
    · intro _; rfl
  | some r =>
    have hrmem := pickOldest_mem hp
    have hrdb : r ∈ db := (List.mem_filter.mp hrmem).1
    have hrel : eligible now r = true := (List.mem_filter.mp hrmem).2
    have hwe : wempty r.worker_id = true := eligible_wempty hrel
    have hrc : r ∈ db.filter (fun q => q.id = r.id && wempty q.worker_id) :=
      List.mem_filter.mpr ⟨hrdb, by simp [hwe]⟩
    have hlen : 0 < (db.filter (fun q => q.id = r.id && wempty q.worker_id)).length :=
      List.length_pos.mpr (List.ne_nil_of_mem hrc)
    try dsimp only
    rw [if_pos hlen]
    constructor
    · intro hcontra; exact Option.noConfusion hcontra
    · intro hall
      exact absurd hrel (by simp [hall r hrdb])

/-- Every job's attempt count is within its budget. -/
def budgetOK (db : List Job) : Prop :=
  ∀ j ∈ db, j.attempts ≤ j.max_retries

/-- The PRIMARY KEY invariant: ids are pairwise distinct. -/
def idsNodup (db : List Job) : Prop :=
  (db.map Job.id).Nodup

/-- With distinct ids, a row is determined by its id. -/
lemma nodup_id_inj (db : List Job) (hn : idsNodup db) {j k : Job}
    (hj : j ∈ db) (hk : k ∈ db) (hid : j.id = k.id) : j = k :=
  List.inj_on_of_nodup_map hn hj hk hid

/-- A guarded row rewrite that keeps `id`, `attempts` and `max_retries`
preserves both parts of the table invariant. -/
lemma inv_map_frame (db : List Job) (f : Job → Job)
    (hid : ∀ j, (f j).id = j.id)
    (ha : ∀ j, (f j).attempts = j.attempts)
    (hm : ∀ j, (f j).max_retries = j.max_retries)
    (h : idsNodup db ∧ budgetOK db) :
    idsNodup (db.map f) ∧ budgetOK (db.map f) := by
  constructor
  · unfold idsNodup
    rw [List.map_map, show (Job.id ∘ f) = Job.id from funext hid]
    exact h.1
  · intro j hj
    rcases List.mem_map.mp hj with ⟨q, hq, rfl⟩
    rw [ha, hm]
    exact h.2 q hq

lemma idsNodup_map (db : List Job) (f : Job → Job)
    (hid : ∀ j, (f j).id = j.id) (h : idsNodup db) : idsNodup (db.map f) := by
  unfold idsNodup
  rw [List.map_map, show (Job.id ∘ f) = Job.id from funext hid]
  exact h

/-- The two possible table outcomes of a lease call. -/
lemma lease_table (db : List Job) (w : String) (now : Nat) :
    (get_next_pending_job db w now).2 = db ∨
    ∃ r : Job, (get_next_pending_job db w now).2 =
      db.map (fun q =>
        if q.id = r.id && wempty q.worker_id then leaseUpdate w now q else q) := by
  unfold get_next_pending_job
  cases hp : pickOldest (db.filter (eligible now)) with
  | none => left; rfl
  | some r =>
    try dsimp only
    by_cases hl : 0 < (db.filter (fun q => q.id = r.id && wempty q.worker_id)).length
    · right
      exact ⟨r, by rw [if_pos hl]⟩
    · left
      rw [if_neg hl]

/-- The queue's failure decision: DLQ exactly when the incremented attempt
count reaches the budget. -/
lemma fail_dlq_iff (cfg : Config) (db : List Job) (job_id err w : String)
    (now : Nat) (job : Job) (h : get_job db job_id = some job) :
    (handle_job_failure cfg db job_id err w now).1.action = FailAction.dlqA ↔
      job.max_retries ≤ job.attempts + 1 := by
  unfold handle_job_failure
  rw [h]
  try dsimp only
  by_cases hc : job.attempts + 1 ≥ job.max_retries
  · rw [if_pos hc]
    exact ⟨fun _ => hc, fun _ => rfl⟩
  · rw [if_neg hc]
    constructor
    · intro hcontra
      exact FailAction.noConfusion hcontra
    · intro hcontra
      exact absurd hcontra hc

/-- Every single operation preserves id-uniqueness and the attempt budget. -/
lemma step_inv (cfg : Config) (db : List Job) (op : Op)
    (h : idsNodup db ∧ budgetOK db) :
    idsNodup (step cfg db op) ∧ budgetOK (step cfg db op) := by
  cases op with
  | enq job_id command m now =>
    show idsNodup (enqueue_job db job_id command m now).2 ∧
         budgetOK (enqueue_job db job_id command m now).2
    unfold enqueue_job
    by_cases hd : db.any (fun j => j.id = job_id) = true
    · rw [if_pos hd]; exact h
    · rw [if_neg hd]
      try dsimp only
      constructor
      · unfold idsNodup
        rw [List.map_append, List.nodup_append]
        refine ⟨h.1, List.nodup_singleton _, ?_⟩
        intro a ha hb
        rcases List.mem_map.mp ha with ⟨q, hq, rfl⟩
        have hqa : q.id = job_id := List.mem_singleton.mp hb
        exact hd (List.any_eq_true.mpr ⟨q, hq, decide_eq_true hqa⟩)
      · intro j hj
        rcases List.mem_append.mp hj with hj1 | hj2
        · exact h.2 j hj1
        · rcases List.mem_singleton.mp hj2 with rfl
          exact Nat.zero_le _
  | lease w now =>
    show idsNodup (get_next_pending_job db w now).2 ∧
         budgetOK (get_next_pending_job db w now).2
    rcases lease_table db w now with he | ⟨r, he⟩
    · rw [he]; exact h
    · rw [he]
      refine inv_map_frame db _ (fun j => ?_) (fun j => ?_) (fun j => ?_) h
      all_goals ((try dsimp only); split <;> rfl)
  | complete job_id w now =>
    show idsNodup (handle_job_success db job_id w now).2 ∧
         budgetOK (handle_job_success db job_id w now).2
    unfold handle_job_success update_job_state
    rw [if_pos rfl]
    try dsimp only
    refine inv_map_frame db _ (fun j => ?_) (fun j => ?_) (fun j => ?_) h
    all_goals ((try dsimp only); split <;> rfl)
  | fail job_id err w now =>
    show idsNodup (handle_job_failure cfg db job_id err w now).2 ∧
         budgetOK (handle_job_failure cfg db job_id err w now).2
    unfold handle_job_failure
    cases hg : get_job db job_id with
    | none => dsimp only; exact h
    | some job =>
      try dsimp only
      by_cases hc : job.attempts + 1 ≥ job.max_retries
      · rw [if_pos hc]
        try dsimp only
        unfold move_to_dlq
        try dsimp only
        refine inv_map_frame db _ (fun j => ?_) (fun j => ?_) (fun j => ?_) h
        all_goals ((try dsimp only); split <;> rfl)
      · rw [if_neg hc]
        try dsimp only
        unfold increment_job_attempts
        try dsimp only
        constructor
        · refine idsNodup_map db _ (fun j => ?_) h.1
          (try dsimp only); split <;> rfl
        · intro x hx
          rcases List.mem_map.mp hx with ⟨q, hq, rfl⟩
          try dsimp only
          by_cases hq2 : q.id = job_id
          · have hjid : job.id = job_id := get_job_id db job_id job hg
        
            have hqj : q = job := nodup_id_inj db h.1 hq (get_job_mem db job_id job hg)
              (by rw [hq2, hjid])
            subst hqj
            rw [if_pos hq2]
            exact Nat.le_of_lt (Nat.lt_of_not_le (fun hle => hc hle))
          · rw [if_neg hq2]
            exact h.2 q hq
  | retryJ job_id now =>
    show idsNodup (retry_job db job_id now).2 ∧ budgetOK (retry_job db job_id now).2
    have hopt : (retry_job db job_id now).2 = db ∨
        (retry_job db job_id now).2 =
          (update_job_state db job_id pending none none now).2 := by
      unfold retry_job
      cases hg : get_job db job_id with
      | none => left; rfl
      | some job =>
        try dsimp only
        by_cases hc : job.state ≠ failed ∧ job.state ≠ dlq
        · rw [if_pos hc]; left; rfl
        · rw [if_neg hc]
          try dsimp only
          right
          split <;> rfl
    rcases hopt with he | he <;> rw [he]
    · exact h
    · unfold update_job_state
      rw [if_neg (by decide : ¬ (pending = completed))]
      try dsimp only
      refine inv_map_frame db _ (fun j => ?_) (fun j => ?_) (fun j => ?_) h
      all_goals ((try dsimp only); split <;> rfl)
  | reclaim w =>
    show idsNodup (deregister_worker db w) ∧ budgetOK (deregister_worker db w)
    unfold deregister_worker
    refine inv_map_frame db _ (fun j => ?_) (fun j => ?_) (fun j => ?_) h
    all_goals ((try dsimp only); split <;> rfl)

/-- Histories preserve the table invariant. -/
lemma run_inv (cfg : Config) (ops : List Op) (db : List Job)
    (h : idsNodup db ∧ budgetOK db) :
    idsNodup (run cfg db ops) ∧ budgetOK (run cfg db ops) := by
  induction ops generalizing db with
  | nil => exact h
  | cons op rest ih => exact ih _ (step_inv cfg db op h)

/-- Reading back an id after a guarded per-row rewrite returns the
rewritten row. -/
lemma get_job_map_self (db : List Job) (f : Job → Job)
    (hid : ∀ j, (f j).id = j.id) (job_id : String) (job : Job)
    (h : get_job db job_id = some job) :
    get_job (db.map f) job_id = some (f job) := by
  rw [get_job_map db f hid job_id, h]
  rfl

/-- The two possible table outcomes of `Queue.retry_job`. -/
lemma retry_table (db : List Job) (job_id : String) (now : Nat) :
    (retry_job db job_id now).2 = db ∨
    (retry_job db job_id now).2 =
      (update_job_state db job_id pending none none now).2 := by
  unfold retry_job
  cases hg : get_job db job_id with
  | none => left; rfl
  | some job =>
    try dsimp only
    by_cases hc : job.state ≠ failed ∧ job.state ≠ dlq
    · rw [if_pos hc]; left; rfl
    · rw [if_neg hc]
      try dsimp only
      right
      split <;> rfl

/-- A row found by id is in the table with exactly that id, so the SQL
rowcount of an `UPDATE ... WHERE id = ?` is positive. -/
lemma any_id_of_get_job (db : List Job) (job_id : String) (job : Job)
    (h : get_job db job_id = some job) :
    db.any (fun j => j.id = job_id) = true :=
  List.any_eq_true.mpr
    ⟨job, get_job_mem db job_id job h, decide_eq_true (get_job_id db job_id job h)⟩

/-! ### Claim theorems -/

/-- C1: `Storage.get_next_pending_job` selects the single oldest row by
`created_at` ascending among rows that are pending, or failed with
`next_retry_at ≤ now`, and whose `worker_id` is empty/null; it transitions
that row to processing with `worker_id` set to the caller, and returns
`None` when no such row exists. -/
theorem C1_lease_oldest_eligible (db : List Job) (w : String) (now : Nat) :
    (∀ j db2, get_next_pending_job db w now = (some j, db2) →
      ∃ r ∈ db, eligible now r = true ∧
        (∀ q ∈ db, eligible now q = true → r.created_at ≤ q.created_at) ∧
        j = { r with state := processing, worker_id := some w } ∧
        { r with state := processing, worker_id := some w,
                 started_at := some now, updated_at := now } ∈ db2) ∧
    ((get_next_pending_job db w now).1 = none ↔
      ∀ q ∈ db, eligible now q = false) := by
  constructor
  · intro j db2 hj
    rcases lease_sound db w now j db2 hj with ⟨r, hr, hrel, hmin, hje, hmem⟩
    exact ⟨r, hr, hrel, hmin, hje, hmem⟩
  · exact lease_none db w now

/-- Witness for C1 at a one-row pending table. -/
theorem C1_lease_oldest_eligible_witness :
    ∃ r ∈ [jW], eligible 5 r = true ∧
      (∀ q ∈ [jW], eligible 5 q = true → r.created_at ≤ q.created_at) ∧
      ({ jW with state := processing, worker_id := some "w1" } : Job) =
        { r with state := processing, worker_id := some "w1" } ∧
      { r with state := processing, worker_id := some "w1",
               started_at := some 5, updated_at := 5 } ∈
        [{ jW with state := processing, worker_id := some "w1",
                   started_at := some 5, updated_at := 5 }] :=
  (C1_lease_oldest_eligible [jW] "w1" 5).1
    { jW with state := processing, worker_id := some "w1" }
    [{ jW with state := processing, worker_id := some "w1",
               started_at := some 5, updated_at := 5 }] rfl

/-- C6 counterexample: a previously leased job (`started_at = some 1`) is
re-leased at time 9 and its `started_at` is overwritten to `some 9`, so the
claim that leasing leaves a non-null `started_at` unchanged is false. -/
theorem C6_counterexample :
    jC6.started_at = some 1 ∧
    (get_next_pending_job [jC6] "w2" 9).2.map Job.started_at = [some 9] ∧
    (some 9 : Option Nat) ≠ some 1 :=
  ⟨rfl, rfl, by decide⟩

/-- C6 amended: the lease UPDATE writes `started_at ← now` unconditionally
on every lease (there is no null check), together with
`state/worker_id/updated_at`. -/
theorem C6_lease_overwrites_started_at (db : List Job) (w : String)
    (now : Nat) (j : Job) (db2 : List Job)
    (h : get_next_pending_job db w now = (some j, db2)) :
    ∃ r ∈ db, j.id = r.id ∧
      { r with state := processing, worker_id := some w,
               started_at := some now, updated_at := now } ∈ db2 := by
  rcases lease_sound db w now j db2 h with ⟨r, hr, _, _, hje, hmem⟩
  refine ⟨r, hr, ?_, hmem⟩
  rw [hje]

/-- Witness for the amended C6 on a row whose `started_at` is non-null. -/
theorem C6_lease_overwrites_started_at_witness :
    ∃ r ∈ [jC6], ({ jC6 with state := processing, worker_id := some "w2" } : Job).id = r.id ∧
      { r with state := processing, worker_id := some "w2",
               started_at := some 9, updated_at := 9 } ∈
        [{ jC6 with state := processing, worker_id := some "w2",
                    started_at := some 9, updated_at := 9 }] :=
  C6_lease_overwrites_started_at [jC6] "w2" 9
    { jC6 with state := processing, worker_id := some "w2" }
    [{ jC6 with state := processing, worker_id := some "w2",
                started_at := some 9, updated_at := 9 }] rfl

/-- C2: `Queue.handle_job_failure` computes `attempts_after = attempts + 1`;
at or past the budget it moves the job to dlq with action `dlq`, otherwise
it marks the job failed with attempts incremented and
`next_retry_at = now + min(backoff_base ^ attempts_after, backoff_max_delay)`
and action `retry`. -/
theorem C2_fail_policy (cfg : Config) (db : List Job) (job_id err w : String)
    (now : Nat) (job : Job) (h : get_job db job_id = some job) :
    (job.max_retries ≤ job.attempts + 1 →
      (handle_job_failure cfg db job_id err w now).1.action = FailAction.dlqA ∧
      get_job (handle_job_failure cfg db job_id err w now).2 job_id =
        some { job with state := dlq, updated_at := now,
                        error_message := some err, worker_id := some "" }) ∧
    (job.attempts + 1 < job.max_retries →
      (handle_job_failure cfg db job_id err w now).1 =
        { action := FailAction.retryA, attempts := some (job.attempts + 1),
          max_retries := some job.max_retries,
          next_retry_at := some (now + min (cfg.backoff_base ^ (job.attempts + 1))
                                            cfg.backoff_max_delay) } ∧
      get_job (handle_job_failure cfg db job_id err w now).2 job_id =
        some { job with attempts := job.attempts + 1,
                        next_retry_at := some (now + min (cfg.backoff_base ^ (job.attempts + 1))
                                                          cfg.backoff_max_delay),
                        updated_at := now, error_message := some err,
                        worker_id := some "", state := failed }) := by
  have hjid : job.id = job_id := get_job_id db job_id job h
  constructor
  · intro hge
    unfold handle_job_failure
    rw [h]
    try dsimp only
    rw [if_pos hge]
    refine ⟨rfl, ?_⟩
    try dsimp only
    unfold move_to_dlq
    try dsimp only
    rw [get_job_map_self db _ (fun q => by (try dsimp only); split <;> rfl) job_id job h]
    rw [if_pos hjid]
  · intro hlt
    have hnge : ¬ (job.attempts + 1 ≥ job.max_retries) := Nat.not_le.mpr hlt
    unfold handle_job_failure
    rw [h]
    try dsimp only
    rw [if_neg hnge]
    refine ⟨rfl, ?_⟩
    try dsimp only
    unfold increment_job_attempts
    try dsimp only
    rw [get_job_map_self db _ (fun q => by (try dsimp only); split <;> rfl) job_id job h]
    rw [if_pos hjid]
    rfl

/-- Witness for C2: the retry branch on a fresh job with budget 3. -/
theorem C2_fail_policy_witness :
    (handle_job_failure cfgD [jW] "a" "boom" "w1" 7).1 =
      { action := FailAction.retryA, attempts := some (jW.attempts + 1),
        max_retries := some jW.max_retries,
        next_retry_at := some (7 + min (cfgD.backoff_base ^ (jW.attempts + 1))
                                         cfgD.backoff_max_delay) } ∧
    get_job (handle_job_failure cfgD [jW] "a" "boom" "w1" 7).2 "a" =
      some { jW with attempts := jW.attempts + 1,
                     next_retry_at := some (7 + min (cfgD.backoff_base ^ (jW.attempts + 1))
                                                      cfgD.backoff_max_delay),
                     updated_at := 7, error_message := some "boom",
                     worker_id := some "", state := failed } :=
  (C2_fail_policy cfgD [jW] "a" "boom" "w1" 7 jW rfl).2 (by decide)

/-- C3 counterexample: completing a job processed by `w1` leaves
`worker_id = "w1"` on the completed row (the COMPLETED branch of
`update_job_state` never writes `worker_id`), refuting the claim that no
completed job carries a non-empty `worker_id`. -/
theorem C3_counterexample :
    (get_job (handle_job_success [jP] "a" "w1" 2).2 "a").map Job.state =
      some completed ∧
    (get_job (handle_job_success [jP] "a" "w1" 2).2 "a").map Job.worker_id =
      some (some "w1") ∧
    wempty (some "w1") = false :=
  ⟨rfl, rfl, by decide⟩

/-- C3 amended: after `Queue.handle_job_success` the job has state
completed, `completed_at` set and `error_message` cleared, but `worker_id`
is left unchanged — a completed job keeps the id of the worker that ran
it. -/
theorem C3_complete_keeps_worker (db : List Job) (job_id w : String)
    (now : Nat) (job : Job) (h : get_job db job_id = some job) :
    (handle_job_success db job_id w now).1 = true ∧
    get_job (handle_job_success db job_id w now).2 job_id =
      some { job with state := completed, completed_at := some now,
                      updated_at := now, error_message := none } ∧
    ∀ job2, get_job (handle_job_success db job_id w now).2 job_id = some job2 →
      job2.worker_id = job.worker_id := by
  have hjid : job.id = job_id := get_job_id db job_id job h
  have htab : get_job (handle_job_success db job_id w now).2 job_id =
      some { job with state := completed, completed_at := some now,
                      updated_at := now, error_message := none } := by
    unfold handle_job_success update_job_state
    rw [if_pos rfl]
    try dsimp only
    rw [get_job_map_self db _ (fun q => by (try dsimp only); split <;> rfl) job_id job h]
    rw [if_pos hjid]
  refine ⟨?_, htab, ?_⟩
  · unfold handle_job_success update_job_state
    rw [if_pos rfl]
    exact any_id_of_get_job db job_id job h
  · intro job2 h2
    rw [htab] at h2
    rw [← Option.some.inj h2]

/-- Witness for the amended C3 on a processing row owned by `w1`. -/
theorem C3_complete_keeps_worker_witness :
    (handle_job_success [jP] "a" "w1" 2).1 = true ∧
    get_job (handle_job_success [jP] "a" "w1" 2).2 "a" =
      some { jP with state := completed, completed_at := some 2,
                     updated_at := 2, error_message := none } ∧
    ∀ job2, get_job (handle_job_success [jP] "a" "w1" 2).2 "a" = some job2 →
      job2.worker_id = jP.worker_id :=
  C3_complete_keeps_worker [jP] "a" "w1" 2 jP rfl

/-- C4: running spec scenario S2 (`max_retries = 2`, two failures) in the
model terminates with `state = dlq` but `attempts = 1`, not the claimed
`attempts = max_retries = 2`: `move_to_dlq` never increments `attempts`,
contradicting the repository's own test suite (test 2 asserts
`attempts == 2`). -/
theorem C4_dlq_attempts_stay_below_budget :
    (get_job (run cfgS2 []
        [Op.enq "b" "false" 2 0, Op.lease "w1" 1, Op.fail "b" "exit 1" "w1" 2,
         Op.lease "w1" 5, Op.fail "b" "exit 1" "w1" 6]) "b").map
      (fun j => (j.state, j.attempts)) = some (dlq, 1) ∧ (1 : Nat) ≠ 2 :=
  ⟨rfl, by decide⟩

/-- C5 counterexample: manually retrying a failed job with
`next_retry_at = some 4` leaves `next_retry_at = some 4` in the table —
`retry_job` goes through `update_job_state`, which never touches
`next_retry_at`, so the claim that it is cleared is false. -/
theorem C5_counterexample :
    jC6.state = failed ∧
    (retry_job [jC6] "a" 9).1.success = true ∧
    (get_job (retry_job [jC6] "a" 9).2 "a").map Job.next_retry_at =
      some (some 4) ∧
    (some 4 : Option Nat) ≠ none :=
  ⟨rfl, rfl, rfl, by decide⟩

/-- C5 amended: on a job in `failed` or `dlq`, `Queue.retry_job` succeeds
and leaves the job pending with `worker_id` set to the empty string and
`error_message` cleared; `next_retry_at` (like every field not listed) is
left unchanged, not cleared. -/
theorem C5_retry_resets_to_pending (db : List Job) (job_id : String)
    (now : Nat) (job : Job) (h : get_job db job_id = some job)
    (hs : job.state = failed ∨ job.state = dlq) :
    (retry_job db job_id now).1.success = true ∧
    get_job (retry_job db job_id now).2 job_id =
      some { job with state := pending, updated_at := now,
                      error_message := none, worker_id := some "" } := by
  have hjid : job.id = job_id := get_job_id db job_id job h
  have hc : ¬ (job.state ≠ failed ∧ job.state ≠ dlq) := by
    rcases hs with hs | hs <;> simp [hs]
  have hany := any_id_of_get_job db job_id job h
  unfold retry_job
  rw [h]
  try dsimp only
  rw [if_neg hc]
  try dsimp only
  unfold update_job_state
  rw [if_neg (by decide : ¬ (pending = completed))]
  try dsimp only
  rw [if_pos hany]
  refine ⟨rfl, ?_⟩
  try dsimp only
  rw [get_job_map_self db _ (fun q => by (try dsimp only); split <;> rfl) job_id job h]
  rw [if_pos hjid]

/-- Witness for the amended C5 on a failed job. -/
theorem C5_retry_resets_to_pending_witness :
    (retry_job [jC6] "a" 9).1.success = true ∧
    get_job (retry_job [jC6] "a" 9).2 "a" =
      some { jC6 with state := pending, updated_at := 9,
                      error_message := none, worker_id := some "" } :=
  C5_retry_resets_to_pending [jC6] "a" 9 jC6 rfl (Or.inl rfl)

/-- C7 counterexample: a job with `max_retries = 1` fails once — the
failure is decided DLQ (`attempts_after = 1 ≥ 1`) — and is then manually
retried; afterwards its state is `pending`, so "in state dlq iff the last
observed failure had `attempts_after ≥ max_retries`" fails right-to-left. -/
theorem C7_counterexample :
    (handle_job_failure cfgD
        (run cfgD [] [Op.enq "a" "c" 1 0, Op.lease "w" 1]) "a" "e" "w" 2).1.action =
      FailAction.dlqA ∧
    (get_job (run cfgD []
        [Op.enq "a" "c" 1 0, Op.lease "w" 1, Op.fail "a" "e" "w" 2,
         Op.retryJ "a" 3]) "a").map Job.state = some pending ∧
    pending ≠ dlq :=
  ⟨rfl, rfl, by decide⟩

/-- C7 amended: over every history of enqueue/lease/complete/fail/retry/
reclaim operations from an empty table, `attempts ≤ max_retries` holds for
every job after every operation; and a failure moves the job into dlq at
that moment iff `attempts_after_this ≥ max_retries` (the job may later
leave dlq through a manual retry). -/
theorem C7_budget_invariant_and_dlq_decision :
    (∀ (cfg : Config) (ops : List Op), budgetOK (run cfg [] ops)) ∧
    (∀ (cfg : Config) (db : List Job) (job_id err w : String) (now : Nat)
        (job : Job), get_job db job_id = some job →
      ((handle_job_failure cfg db job_id err w now).1.action = FailAction.dlqA ↔
        job.max_retries ≤ job.attempts + 1)) := by
  constructor
  · intro cfg ops
    refine (run_inv cfg ops [] ⟨List.nodup_nil, ?_⟩).2
    intro j hj
    exact absurd hj (List.not_mem_nil j)
  · intro cfg db job_id err w now job h
    exact fail_dlq_iff cfg db job_id err w now job h

/-- Witness for C7: the budget invariant on a concrete one-op history and
the DLQ decision on a concrete table. -/
theorem C7_budget_invariant_and_dlq_decision_witness :
    budgetOK (run cfgD [] [Op.enq "a" "c" 1 0]) ∧
    ((handle_job_failure cfgD [jW] "a" "e" "w" 2).1.action = FailAction.dlqA ↔
      jW.max_retries ≤ jW.attempts + 1) :=
  ⟨C7_budget_invariant_and_dlq_decision.1 cfgD [Op.enq "a" "c" 1 0],
   C7_budget_invariant_and_dlq_decision.2 cfgD [jW] "a" "e" "w" 2 jW rfl⟩

/-- C8 counterexample: a completed row still carrying `worker_id = "w1"`
survives `deregister_worker "w1"` untouched (the UPDATE only matches
`state = processing`), so "no row has worker_id = w afterwards" is false. -/
theorem C8_counterexample :
    jDone.worker_id = some "w1" ∧
    (deregister_worker [jDone] "w1").map Job.worker_id = [some "w1"] ∧
    wempty (some "w1") = false :=
  ⟨rfl, rfl, by decide⟩

/-- C8 amended: after `deregister_worker w` no row is in `processing` with
`worker_id = w`, and every previously processing row owned by `w` becomes
`pending` with `worker_id` cleared to the empty string; rows in other
states (e.g. completed ones) keep their `worker_id`, which may still be
`w`. -/
theorem C8_reclaim_releases_processing (db : List Job) (w : String) :
    (∀ r ∈ deregister_worker db w,
      ¬(r.state = processing ∧ r.worker_id = some w)) ∧
    (∀ r ∈ db, r.state = processing → r.worker_id = some w →
      { r with worker_id := some "", state := pending } ∈
        deregister_worker db w) ∧
    (∀ r ∈ db, r.state ≠ processing → r ∈ deregister_worker db w) := by
  refine ⟨?_, ?_, ?_⟩
  · intro r hr
    rcases List.mem_map.mp hr with ⟨q, hq, rfl⟩
    try dsimp only
    by_cases hg : (q.worker_id = some w && q.state = processing) = true
    · rw [if_pos hg]
      rintro ⟨h1, _⟩
      exact JState.noConfusion h1
    · rw [if_neg hg]
      rintro ⟨h1, h2⟩
      exact hg (by rw [Bool.and_eq_true]; exact ⟨decide_eq_true h2, decide_eq_true h1⟩)
  · intro r hr h1 h2
    unfold deregister_worker
    have hm := List.mem_map_of_mem (fun j : Job =>
      if j.worker_id = some w && j.state = processing then
        { j with worker_id := some "", state := pending }
      else j) hr
    dsimp only at hm
    rw [if_pos (by rw [Bool.and_eq_true]; exact ⟨decide_eq_true h2, decide_eq_true h1⟩)] at hm
    exact hm
  · intro r hr h1
    unfold deregister_worker
    have hm := List.mem_map_of_mem (fun j : Job =>
      if j.worker_id = some w && j.state = processing then
        { j with worker_id := some "", state := pending }
      else j) hr
    dsimp only at hm
    rw [if_neg (by
      rw [Bool.and_eq_true]
      rintro ⟨_, hb⟩
      exact h1 (of_decide_eq_true hb))] at hm
    exact hm

/-- Witness for the amended C8: a table with one processing row owned by
`w1` and one completed row. -/
theorem C8_reclaim_releases_processing_witness :
    ¬(({ jP with worker_id := some "", state := pending } : Job).state = processing ∧
      ({ jP with worker_id := some "", state := pending } : Job).worker_id = some "w1") ∧
    ({ jP with worker_id := some "", state := pending } : Job) ∈
      deregister_worker [jP, jDone] "w1" ∧
    jDone ∈ deregister_worker [jP, jDone] "w1" :=
  ⟨(C8_reclaim_releases_processing [jP, jDone] "w1").1
      { jP with worker_id := some "", state := pending }
      ((C8_reclaim_releases_processing [jP, jDone] "w1").2.1 jP
        (List.mem_cons_self jP [jDone]) rfl rfl),
   (C8_reclaim_releases_processing [jP, jDone] "w1").2.1 jP
      (List.mem_cons_self jP [jDone]) rfl rfl,
   (C8_reclaim_releases_processing [jP, jDone] "w1").2.2 jDone
      (List.mem_cons_of_mem jP (List.mem_cons_self jDone [])) (by decide)⟩

/-- C9: `Queue.retry_job` on a missing id, or on a job that is neither
`failed` nor `dlq`, returns `success = false` (a plain negative result, no
exception in the total model) and leaves the whole jobs table unchanged. -/
theorem C9_retry_refuses_without_change (db : List Job) (job_id : String)
    (now : Nat) :
    (get_job db job_id = none →
      (retry_job db job_id now).1.success = false ∧
      (retry_job db job_id now).2 = db) ∧
    (∀ job, get_job db job_id = some job →
      job.state ≠ failed → job.state ≠ dlq →
      (retry_job db job_id now).1.success = false ∧
      (retry_job db job_id now).2 = db) := by
  constructor
  · intro h
    unfold retry_job
    rw [h]
    exact ⟨rfl, rfl⟩
  · intro job h h1 h2
    unfold retry_job
    rw [h]
    try dsimp only
    rw [if_pos ⟨h1, h2⟩]
    exact ⟨rfl, rfl⟩

/-- Witness for C9: a missing id and a completed job both refuse. -/
theorem C9_retry_refuses_without_change_witness :
    ((retry_job [] "zzz" 0).1.success = false ∧ (retry_job [] "zzz" 0).2 = []) ∧
    ((retry_job [jDone] "a" 0).1.success = false ∧
      (retry_job [jDone] "a" 0).2 = [jDone]) :=
  ⟨(C9_retry_refuses_without_change [] "zzz" 0).1 rfl,
   (C9_retry_refuses_without_change [jDone] "a" 0).2 jDone rfl
      (by decide) (by decide)⟩

/-- C10: `Queue.retry_job` never changes any job's `attempts` or
`max_retries` (in any branch), and a job whose accumulated attempts already
satisfy `attempts + 1 ≥ max_retries` is decided DLQ by the very next
failure. -/
theorem C10_retry_keeps_attempts (db : List Job) (job_id : String)
    (now : Nat) :
    ((retry_job db job_id now).2).map (fun r => (r.id, r.attempts, r.max_retries)) =
      db.map (fun r => (r.id, r.attempts, r.max_retries)) ∧
    (∀ (cfg : Config) (db2 : List Job) (err w : String) (now2 : Nat)
        (job : Job), get_job db2 job_id = some job →
      job.max_retries ≤ job.attempts + 1 →
      (handle_job_failure cfg db2 job_id err w now2).1.action =
        FailAction.dlqA) := by
  constructor
  · rcases retry_table db job_id now with he | he <;> rw [he]
    · unfold update_job_state
      rw [if_neg (by decide : ¬ (pending = completed))]
      try dsimp only
      rw [List.map_map]
      have hcomp : ((fun r : Job => (r.id, r.attempts, r.max_retries)) ∘
          (fun j : Job => if j.id = job_id then
            { j with state := pending, updated_at := now,
                     error_message := none, worker_id := some "" }
          else j)) = fun r : Job => (r.id, r.attempts, r.max_retries) := by
        funext r
        dsimp [Function.comp]
        split <;> rfl
      rw [hcomp]
  · intro cfg db2 err w now2 job h hge
    exact (fail_dlq_iff cfg db2 job_id err w now2 job h).mpr hge

/-- Witness for C10: retrying a DLQ job keeps `attempts = 1`, and with
`max_retries = 2` the next failure is decided DLQ. -/
theorem C10_retry_keeps_attempts_witness :
    ((retry_job [jDlq] "a" 9).2).map (fun r => (r.id, r.attempts, r.max_retries)) =
      [jDlq].map (fun r => (r.id, r.attempts, r.max_retries)) ∧
    (handle_job_failure cfgD [jDlq] "a" "e" "w" 10).1.action = FailAction.dlqA :=
  ⟨(C10_retry_keeps_attempts [jDlq] "a" 9).1,
   (C10_retry_keeps_attempts [jDlq] "a" 9).2 cfgD [jDlq] "e" "w" 10 jDlq rfl
      (by decide)⟩
